import Mathlib

set_option maxRecDepth 8192

/-!
# Verification of the changelog-to-HTML generator

Shallow embedding of `scripts/generate_changelog_html.py`: the changelog
parser (`parse_changelog`), the metadata heuristics (`get_title`,
`get_tags`), the date formatter (`format_date`), and the HTML renderer
(`escape_html`, `format_item`, `generate_release_html`, `generate_html`).

Conventions of the embedding:
* Python strings become Lean `String`s; most character-level work is done
  on `String.data` (`List Char`).
* The two `re.match` patterns of the parser and the inline-markup
  `re.sub` patterns are modelled directly as deterministic matchers
  (each pattern is anchored and free of any real backtracking ambiguity,
  as each capture class excludes its closing delimiter).
* `\d` is modelled as an ASCII digit, `str.lower` as ASCII lowering and
  `str.strip` over CPython's whitespace table restricted to its
  single-byte entries; the changelog dialect is ASCII.
* A Python `dict` (insertion-ordered, unique keys) becomes an
  association list `List (String × List String)`; assignment to an
  existing key replaces the value in place, keeping the key's position.
-/

/-- Whitespace as recognized by CPython `str.strip()` (the single-byte
entries of its table: `\t`, `\n`, `\v`, `\f`, `\r`, space, the ASCII
separator controls 0x1c-0x1f, next line 0x85 and no-break space 0xa0). -/
def pySpace (c : Char) : Bool :=
  (9 ≤ c.toNat && c.toNat ≤ 13) || c = ' ' ||
  (28 ≤ c.toNat && c.toNat ≤ 31) || c.toNat = 133 || c.toNat = 160

/-- Python `str.strip()` on a character list: drop leading and trailing
whitespace. -/
def pyStripL (l : List Char) : List Char :=
  ((l.dropWhile pySpace).reverse.dropWhile pySpace).reverse

/-- Python `str.strip()`. -/
def pyStrip (s : String) : String :=
  ⟨pyStripL s.data⟩

/-- Shape of the date capture group `\d{4}-\d{2}-\d{2}`: exactly ten
characters, digits and hyphens in calendar positions. -/
def dateShape (l : List Char) : Bool :=
  match l with
  | [a, b, c, d, h1, e, f, h2, g, k] =>
    a.isDigit && b.isDigit && c.isDigit && d.isDigit && h1 = '-' &&
    e.isDigit && f.isDigit && h2 = '-' && g.isDigit && k.isDigit
  | _ => false

/-- The release-header pattern of the parser,
`re.match(r'^## \[([^\]]+)\] - (\d{4}-\d{2}-\d{2})', line)`: the literal
`## [`, a non-empty version token free of `]` (the greedy class `[^\]]+`
runs to the first `]`), the literal `] - `, then the date token; trailing
text is ignored (the pattern is unanchored on the right).  Returns the
two capture groups. -/
def releaseMatch (line : String) : Option (String × String) :=
  match line.data with
  | '#' :: '#' :: ' ' :: '[' :: rest =>
    let ver := rest.takeWhile (fun c => c ≠ ']')
    if ver.isEmpty then none
    else
      match rest.drop ver.length with
      | ']' :: ' ' :: '-' :: ' ' :: drest =>
        if dateShape (drest.take 10) then some (⟨ver⟩, ⟨drest.take 10⟩)
        else none
      | _ => none
  | _ => none

/-- The section-header pattern `re.match(r'^### (.+)$', line)`: the
literal `### `, then at least one character (`.` never crosses a
newline), with `$` matching at the end of the string or just before one
trailing final newline.  Returns the capture group. -/
def sectionMatch (line : String) : Option String :=
  match line.data with
  | '#' :: '#' :: '#' :: ' ' :: rest =>
    let body := rest.takeWhile (fun c => c ≠ '\n')
    if body.isEmpty then none
    else if rest.length = body.length ∨ rest.length = body.length + 1 then
      some ⟨body⟩
    else none
  | _ => none

/-- One parsed release.  The Python dict also carries `title` and `tags`
fields initialised to `''` and `[]`, but they are never read (title and
tags are recomputed by the renderer from `sections`), so they are not
modelled. -/
structure Release where
  version : String
  date : String
  sections : List (String × List String)
deriving Repr, DecidableEq

/-- Python `d[k] = v` on an insertion-ordered dict with unique keys:
replace the value at the first occurrence of `k`, keeping its position,
or append the pair when `k` is absent. -/
def dictSet (m : List (String × List String)) (k : String)
    (v : List String) : List (String × List String) :=
  match m with
  | [] => [(k, v)]
  | (k', v') :: rest =>
    if k' = k then (k, v) :: rest else (k', v') :: dictSet rest k v

/-- Python `d[k].append(item)`: extend the value at the first occurrence
of `k`.  The parser only reaches this with `k` present (the current
section is always installed in the dict when it becomes current), so the
missing-key case is unreachable there and modelled as a no-op. -/
def dictAppend (m : List (String × List String)) (k : String)
    (item : String) : List (String × List String) :=
  match m with
  | [] => []
  | (k', v') :: rest =>
    if k' = k then (k, v' ++ [item]) :: rest
    else (k', v') :: dictAppend rest k item

/-- Python `d.get(k)`: the value at the first occurrence of `k`. -/
def dictGet (m : List (String × List String)) (k : String) :
    Option (List String) :=
  match m with
  | [] => none
  | (k', v) :: rest => if k' = k then some v else dictGet rest k

/-- Python `k in d`: key membership. -/
def hasKey (m : List (String × List String)) (k : String) : Bool :=
  m.any (fun p => p.1 = k)

/-- The scanning state of `parse_changelog`: the finalized releases, the
currently open release (if any) and the current section label (if any). -/
structure ParseState where
  releases : List Release
  current : Option Release
  curSection : Option String
deriving Repr, DecidableEq

/-- The empty initial state. -/
def initState : ParseState := ⟨[], none, none⟩

/-- The list-item branch of the scanning loop: append the stripped item
body to the current section, provided a release is open and the current
section label is truthy (set and non-empty); otherwise leave the state
unchanged. -/
def applyItem (st : ParseState) (body : List Char) : ParseState :=
  match st.current, st.curSection with
  | some r, some sec =>
    if sec ≠ "" then
      { st with
        current := some
          { r with sections := dictAppend r.sections sec ⟨pyStripL body⟩ } }
    else st
  | _, _ => st

/-- One iteration of the scanning loop of `parse_changelog`, classifying
one line.  A release header finalizes any open release, opens a new one
and clears the current section.  A section header is honoured only while
a release is open; it resets the named section to an empty item list
(Python `current_release['sections'][current_section] = []`) and makes it
current.  A `- ` line is honoured only while both a release and a truthy
(non-`None`, non-empty) current section are active; the stripped
remainder is appended to that section.  Every other line is ignored. -/
def parseLine (st : ParseState) (line : String) : ParseState :=
  match releaseMatch line with
  | some (v, d) =>
    { releases := st.releases ++ st.current.toList
      current := some { version := v, date := d, sections := [] }
      curSection := none }
  | none =>
    match sectionMatch line, st.current with
    | some g, some r =>
      let name := pyStrip g
      { st with
        current := some { r with sections := dictSet r.sections name [] }
        curSection := some name }
    | _, _ =>
      match line.data with
      | '-' :: ' ' :: body => applyItem st body
      | _ => st

/-- End of input: finalize the open release, if any. -/
def finalizeState (st : ParseState) : List Release :=
  st.releases ++ st.current.toList

/-- Scan a list of lines from the initial state. -/
def parseLines (ls : List String) : List Release :=
  finalizeState (ls.foldl parseLine initState)

/-- Python `content.split('\n')` on the character level: split at every
newline, keeping empty parts (so the result always has one more part
than there are newlines). -/
def splitNl : List Char → List (List Char)
  | [] => [[]]
  | c :: cs =>
    if c = '\n' then [] :: splitNl cs
    else
      match splitNl cs with
      | [] => [[c]]
      | l :: ls => (c :: l) :: ls

/-- Python `content.split('\n')`. -/
def splitLines (content : String) : List String :=
  (splitNl content.data).map String.mk

/-- The parser `parse_changelog(content)`: split on `\n` and scan the
lines. -/
def parse_changelog (content : String) : List Release :=
  parseLines (splitLines content)

/-- Numeric value of an ASCII digit. -/
def digitVal (c : Char) : Nat := c.toNat - 48

/-- The two-digit alternatives of CPython's `%m` pattern
`1[0-2]|0[1-9]|[1-9]` (the one-digit alternative is handled at the use
site). -/
def month2ok (m1 m2 : Char) : Bool :=
  (m1 = '1' && ('0' ≤ m2 && m2 ≤ '2')) || (m1 = '0' && ('1' ≤ m2 && m2 ≤ '9'))

/-- The two-digit alternatives of CPython's `%d` pattern
`3[01]|[12]\d|0[1-9]|[1-9]`. -/
def day2ok (d1 d2 : Char) : Bool :=
  (d1 = '3' && (d2 = '0' || d2 = '1')) ||
  ((d1 = '1' || d1 = '2') && d2.isDigit) ||
  (d1 = '0' && ('1' ≤ d2 && d2 ≤ '9'))

/-- Match the `%d` pattern against the rest of the input, requiring the
whole input to be consumed (`_strptime` raises `unconverted data
remains` otherwise, which the `except` swallows).  Two digits are
preferred (greedy alternation); with exactly two characters left a
one-digit day would leave data unconverted, so the outcomes coincide
with the regex engine's. -/
def parseDayEnd : List Char → Option Nat
  | [d1] => if '1' ≤ d1 && d1 ≤ '9' then some (digitVal d1) else none
  | [d1, d2] =>
    if day2ok d1 d2 then some (10 * digitVal d1 + digitVal d2) else none
  | _ => none

/-- Match `%m-`%d` to the end of the input: a two-digit month followed by
`-` and the day, or (backtracking, since the literal `-` cannot be a
digit) a one-digit month. -/
def parseMonthDayEnd (cs : List Char) : Option (Nat × Nat) :=
  (match cs with
   | m1 :: m2 :: '-' :: rest =>
     if month2ok m1 m2 then
       (parseDayEnd rest).map (fun d => (10 * digitVal m1 + digitVal m2, d))
     else none
   | _ => none) <|>
  (match cs with
   | m1 :: '-' :: rest =>
     if '1' ≤ m1 && m1 ≤ '9' then
       (parseDayEnd rest).map (fun d => (digitVal m1, d))
     else none
   | _ => none)

/-- Gregorian leap year, as in Python's `datetime`. -/
def isLeap (y : Nat) : Bool :=
  y % 4 = 0 && (y % 100 ≠ 0 || y % 400 = 0)

/-- Length of a month, as in Python's `datetime`. -/
def daysInMonth (y m : Nat) : Nat :=
  if m = 2 then (if isLeap y then 29 else 28)
  else if m = 4 || m = 6 || m = 9 || m = 11 then 30
  else 31

/-- CPython `datetime.strptime(s, '%Y-%m-%d')`: `%Y` is exactly four
digits, then a literal `-`, then month and day patterns consuming the
whole string; the resulting numbers must form a real calendar date with
year at least `MINYEAR = 1` or `datetime` raises, which the caller's
`except` turns into `none`. -/
def strptimeYmd (s : String) : Option (Nat × Nat × Nat) :=
  match s.data with
  | y1 :: y2 :: y3 :: y4 :: '-' :: rest =>
    if y1.isDigit && y2.isDigit && y3.isDigit && y4.isDigit then
      match parseMonthDayEnd rest with
      | some (m, d) =>
        let y := 1000 * digitVal y1 + 100 * digitVal y2 +
          10 * digitVal y3 + digitVal y4
        if 1 ≤ y ∧ d ≤ daysInMonth y m then some (y, m, d) else none
      | none => none
    else none
  | _ => none

/-- English month names, as produced by `strftime('%B')` in the C
locale. -/
def monthName : Nat → String
  | 1 => "January"
  | 2 => "February"
  | 3 => "March"
  | 4 => "April"
  | 5 => "May"
  | 6 => "June"
  | 7 => "July"
  | 8 => "August"
  | 9 => "September"
  | 10 => "October"
  | 11 => "November"
  | 12 => "December"
  | _ => ""

/-- Zero-padded two-digit field, as produced by `strftime('%d')`. -/
def pad2 (n : Nat) : String :=
  if n < 10 then "0" ++ toString n else toString n

/-- The date formatter `format_date`: attempt
`strptime(date_str, '%Y-%m-%d')` and render `'%B %d, %Y'`; any parsing
failure falls back to the raw input string (`except: return date_str`). -/
def format_date (date_str : String) : String :=
  match strptimeYmd date_str with
  | some (y, m, d) => monthName m ++ " " ++ pad2 d ++ ", " ++ toString y
  | none => date_str

/-- The ASCII apostrophe, Python's default string-repr quote. -/
def squote : Char := Char.ofNat 39

/-- One character under Python `repr` of a string with chosen quote `q`:
backslash and the quote are backslash-escaped, the common controls get
their mnemonic escapes, other ASCII controls (and delete) become `\xhh`;
printable characters stand for themselves. -/
def pyEscChar (q c : Char) : String :=
  if c = '\\' then "\\\\"
  else if c = q then "\\" ++ String.singleton q
  else if c = '\n' then "\\n"
  else if c = '\r' then "\\r"
  else if c = '\t' then "\\t"
  else if c.toNat < 32 || c.toNat = 127 then
    "\\x" ++ String.singleton (Nat.digitChar (c.toNat / 16)) ++
      String.singleton (Nat.digitChar (c.toNat % 16))
  else String.singleton c

/-- Python `repr` of a string: single-quoted, unless the string contains
an apostrophe but no double quote, in which case double-quoted. -/
def pyReprStr (s : String) : String :=
  let q := if s.data.contains squote && !s.data.contains '"' then '"' else squote
  String.singleton q ++ String.join (s.data.map (pyEscChar q)) ++
    String.singleton q

/-- Python `repr` of a list of strings. -/
def pyReprList (l : List String) : String :=
  "[" ++ String.intercalate ", " (l.map pyReprStr) ++ "]"

/-- Python `str(sections)` for the sections dict: `{...}` with
`repr(key): repr(value)` entries in insertion order. -/
def strSections (sections : List (String × List String)) : String :=
  "\x7b" ++
    String.intercalate ", "
      (sections.map (fun p => pyReprStr p.1 ++ ": " ++ pyReprList p.2)) ++
    "\x7d"

/-- Contiguous occurrence of `needle` in `hay`. -/
def listInfixOf (needle hay : List Char) : Bool :=
  match hay with
  | [] => needle.isEmpty
  | _ :: tl => needle.isPrefixOf hay || listInfixOf needle tl

/-- Python `needle in hay` on strings: substring containment. -/
def strContains (hay needle : String) : Bool :=
  listInfixOf needle.data hay.data

/-- Python `str.lower()`, restricted to ASCII (the keyword scan only
involves ASCII letters). -/
def pyLower (s : String) : String :=
  ⟨s.data.map Char.toLower⟩

/-- The tag heuristic `get_tags`: presence tags for the `Added`,
`Changed` and `Fixed` keys, a `breaking` tag when the `Breaking` key
exists or `BREAKING` occurs in `str(sections)`, then the first-matching
topic keyword group over the lowercased `str(sections)` dump; the
collected list is truncated to four entries (`tags[:4]`). -/
def get_tags (release : Release) : List (String × String) :=
  let sections := release.sections
  let base :=
    (if hasKey sections "Added" then [("new", "New")] else []) ++
    (if hasKey sections "Changed" then [("feature", "Changed")] else []) ++
    (if hasKey sections "Fixed" then [("fix", "Fixed")] else []) ++
    (if hasKey sections "Breaking" ||
        strContains (strSections sections) "BREAKING" then
      [("breaking", "Breaking")]
    else [])
  let content := pyLower (strSections sections)
  let topic :=
    if strContains content "auth" then [("feature", "Authentication")]
    else if strContains content "resilience" || strContains content "circuit" ||
        strContains content "retry" then [("feature", "Resilience")]
    else if strContains content "cqrs" || strContains content "event" then
      [("feature", "CQRS")]
    else if strContains content "mcp" then [("feature", "MCP")]
    else if strContains content "grpc" || strContains content "graphql" ||
        strContains content "protocol" then [("feature", "Multi-Protocol")]
    else if strContains content "shutdown" then
      [("feature", "Production-Ready")]
    else if strContains content "security" then [("feature", "Security")]
    else []
  (base ++ topic).take 4

/-- The title bold pattern `re.match(r'\*\*([^*]+)\*\*', item)`: the
item starts with `**`, then a non-empty asterisk-free run (greedy, so it
extends to the character before the next `*`), then `**`; trailing text
is ignored.  Returns the capture group. -/
def boldMatch (item : String) : Option String :=
  match item.data with
  | '*' :: '*' :: rest =>
    let inner := rest.takeWhile (fun c => c ≠ '*')
    if inner.isEmpty then none
    else
      match rest.drop inner.length with
      | '*' :: '*' :: _ => some ⟨inner⟩
      | _ => none
  | _ => none

/-- The title heuristic `get_title`: with a non-empty `Added` section,
the first bold-led item's bold text, else the first item truncated to 50
characters with `...` appended when longer; without a (non-empty)
`Added` section, `"Version "` plus the version. -/
def get_title (release : Release) : String :=
  let added := (dictGet release.sections "Added").getD []
  match added.findSome? boldMatch with
  | some inner => inner
  | none =>
    match added with
    | [] => "Version " ++ release.version
    | a0 :: _ =>
      if a0.data.length > 50 then ⟨a0.data.take 50⟩ ++ "..." else a0

/-- Python `str.replace(pat, rep)` for a non-empty pattern, on the
character level with explicit fuel (one unit per emitted position; the
initial fuel `cs.length` is enough since every step consumes at least
one character): replace every non-overlapping occurrence, scanning left
to right. -/
def replaceAllL (pat rep : List Char) : Nat → List Char → List Char
  | _, [] => []
  | 0, cs => cs
  | Nat.succ n, c :: cs =>
    if pat.isPrefixOf (c :: cs) then
      rep ++ replaceAllL pat rep n ((c :: cs).drop pat.length)
    else c :: replaceAllL pat rep n cs

/-- Python `s.replace(pat, rep)`. -/
def strReplace (s pat rep : String) : String :=
  ⟨replaceAllL pat.data rep.data s.data.length s.data⟩

/-- The helper `escape_html`: substitute `&`, then `<`, then `>` by
their entities, in exactly that order. -/
def escape_html (text : String) : String :=
  strReplace (strReplace (strReplace text "&" "&amp;") "<" "&lt;") ">" "&gt;"

/-- Match of the bold pattern `\*\*([^*]+)\*\*` at the head of the
input, returning the capture and the remaining input. -/
def boldAt : List Char → Option (List Char × List Char)
  | '*' :: '*' :: rest =>
    let inner := rest.takeWhile (fun c => c ≠ '*')
    if inner.isEmpty then none
    else
      match rest.drop inner.length with
      | '*' :: '*' :: after => some (inner, after)
      | _ => none
  | _ => none

/-- The ASCII backquote, the inline-code delimiter. -/
def backquote : Char := Char.ofNat 96

/-- Match of the inline-code pattern (backquote, one or more
non-backquote characters, backquote) at the head of the input. -/
def codeAt : List Char → Option (List Char × List Char)
  | c :: rest =>
    if c = backquote then
      let inner := rest.takeWhile (fun x => x ≠ backquote)
      if inner.isEmpty then none
      else
        match rest.drop inner.length with
        | _ :: after => some (inner, after)
        | [] => none
    else none
  | [] => none

/-- Match of the link pattern `\[([^\]]+)\]\(([^)]+)\)` at the head of
the input, returning label, target and the remaining input. -/
def linkAt : List Char → Option (List Char × List Char × List Char)
  | '[' :: rest =>
    let label := rest.takeWhile (fun c => c ≠ ']')
    if label.isEmpty then none
    else
      match rest.drop label.length with
      | ']' :: '(' :: rest2 =>
        let target := rest2.takeWhile (fun c => c ≠ ')')
        if target.isEmpty then none
        else
          match rest2.drop target.length with
          | ')' :: after => some (label, target, after)
          | _ => none
      | _ => none
  | _ => none

/-- The bold substitution
`re.sub(r'\*\*([^*]+)\*\*', r'<strong>\1</strong>', item)`: left to
right, emit the replacement at every match, otherwise copy a character.
Fuel as in `replaceAllL`. -/
def subBold : Nat → List Char → List Char
  | _, [] => []
  | 0, cs => cs
  | Nat.succ n, c :: cs =>
    match boldAt (c :: cs) with
    | some (inner, after) =>
      "<strong>".data ++ inner ++ "</strong>".data ++ subBold n after
    | none => c :: subBold n cs

/-- The inline-code substitution producing
`<code class="code-inline">...</code>`. -/
def subCode : Nat → List Char → List Char
  | _, [] => []
  | 0, cs => cs
  | Nat.succ n, c :: cs =>
    match codeAt (c :: cs) with
    | some (inner, after) =>
      "<code class=\"code-inline\">".data ++ inner ++ "</code>".data ++
        subCode n after
    | none => c :: subCode n cs

/-- The link substitution producing `<a href="target">label</a>`. -/
def subLink : Nat → List Char → List Char
  | _, [] => []
  | 0, cs => cs
  | Nat.succ n, c :: cs =>
    match linkAt (c :: cs) with
    | some (label, target, after) =>
      "<a href=\"".data ++ target ++ "\">".data ++ label ++ "</a>".data ++
        subLink n after
    | none => c :: subLink n cs

/-- The item formatter `format_item`: the bold, inline-code and link
substitutions applied in that order.  No HTML escaping happens here. -/
def format_item (item : String) : String :=
  let s1 := subBold item.data.length item.data
  let s2 := subCode s1.length s1
  ⟨subLink s2.length s2⟩

/-- Python `sep.join(parts)`. -/
def joinSep (sep : String) : List String -> String
  | [] => ""
  | [x] => x
  | x :: y :: xs => x ++ sep ++ joinSep sep (y :: xs)

/-- One rendered section block of `generate_release_html` (the loop
body for a section with at least one item): escaped section name, then
the first ten items (`items[:10]`), each through `format_item`.  The
literal parts of the f-string are written split at the `h3` boundaries
(adjacent string literals, same concatenation). -/
def sectionBlock (section_name : String) (items : List String) : String :=
  let items_html := joinSep "\n                                "
    ((items.take 10).map (fun item => "<li>" ++ format_item item ++ "</li>"))
  "\n                        <div class=\"section\">\n                            " ++
    "<h3 class=\"section-title\">" ++ escape_html section_name ++ "</h3>" ++
    "\n                            <ul>\n                                " ++
    items_html ++
    "\n                            </ul>\n                        </div>\n"

/-- The section loop of `generate_release_html`: concatenate the blocks
of the non-empty sections in order; a section with no items is skipped
(`if not items: continue`). -/
def sectionsHtml : List (String × List String) → String
  | [] => ""
  | (section_name, items) :: rest =>
    if items.isEmpty then sectionsHtml rest
    else sectionBlock section_name items ++ sectionsHtml rest

/-- The per-release renderer `generate_release_html`: the f-string
fragment with the formatted date, the version, the escaped inferred
title, the tag badges and the section blocks. -/
def generate_release_html (release : Release) : String :=
  let version := release.version
  let date := format_date release.date
  let title := get_title release
  let tags := get_tags release
  let tags_html := joinSep "\n                            "
    (tags.map (fun t =>
      "<span class=\"tag " ++ t.1 ++ "\">" ++ t.2 ++ "</span>"))
  let sections_html := sectionsHtml release.sections
  "\n                <!-- v" ++ version ++
    " -->\n                <div class=\"release\">\n                    <div class=\"release-meta\">\n                        <div class=\"release-date\">" ++
    date ++
    "</div>\n                        <div class=\"release-version\">" ++
    version ++
    "</div>\n                    </div>\n                    <div class=\"release-content\">\n                        " ++
    "<h2 class=\"release-title\">" ++ escape_html title ++ "</h2>" ++
    "\n                        <div class=\"release-tags\">\n                            " ++
    tags_html ++
    "\n                        </div>\n" ++
    sections_html ++
    "\n                    </div>\n                </div>\n"

/-- The static page template `HTML_TEMPLATE`.  The Python constant is a
260-line static HTML page (head metadata, inline CSS, navigation and
footer) with no input-dependent text; it is abbreviated here to its
structural skeleton around its single `\x7breleases_html\x7d`
placeholder, the only part any claim depends on. -/
def HTML_TEMPLATE : String :=
  "<!DOCTYPE html>\n<html lang=\"en\">\n<head>\n    <title>Changelog - AllFrame</title>\n</head>\n<body>\n        <div class=\"timeline\">\n            <div class=\"container\">\n\x7breleases_html\x7d\n            </div>\n        </div>\n</body>\n</html>\n"

/-- The page assembler `generate_html`: render the first fifteen
releases (`releases[:15]`), join the fragments and substitute them for
the placeholder in the template. -/
def generate_html (releases : List Release) : String :=
  let releases_html :=
    String.join ((releases.take 15).map generate_release_html)
  strReplace HTML_TEMPLATE "\x7breleases_html\x7d" releases_html

/-- Projection of a release onto the pair captured by the header
pattern. -/
def recVD (r : Release) : String × String := (r.version, r.date)

/-- Every item of every section has neither leading nor trailing
whitespace. -/
def ItemsOK (m : List (String × List String)) : Prop :=
  ∀ p ∈ m, ∀ it ∈ p.2,
    (∀ c, it.data.head? = some c → pySpace c = false) ∧
    (∀ c, it.data.getLast? = some c → pySpace c = false)

/-- The record invariants of C10. -/
def RecordOK (r : Release) : Prop :=
  r.version.data ≠ [] ∧ (∀ c ∈ r.version.data, c ≠ ']') ∧
  dateShape r.date.data = true ∧ ItemsOK r.sections

/-- The parser-state invariant: all finalized records and the open one
satisfy `RecordOK`. -/
def StateOK (st : ParseState) : Prop :=
  (∀ r ∈ st.releases, RecordOK r) ∧ ∀ r, st.current = some r → RecordOK r

/-- The three title rules in the specification's own formulation,
first match winning: (1) with a non-empty `Added` section, the inside
of the first bold-led item's bold span; (2) else with a non-empty
`Added` section, the first item truncated to its first 50 characters
with an ellipsis appended when longer than 50; (3) else the string
`Version ` followed by the version identifier. -/
def titleSpec (release : Release) : String :=
  let added := (dictGet release.sections "Added").getD []
  if added ≠ [] ∧ (added.findSome? boldMatch).isSome then
    (added.findSome? boldMatch).getD ""
  else if added ≠ [] then
    let a0 := added.headD ""
    if a0.data.length > 50 then ⟨a0.data.take 50⟩ ++ "..." else a0
  else "Version " ++ release.version

/-- The topic keyword groups of the specification, in priority order,
with their tag labels. -/
def topicGroups : List (List String × String) :=
  [(["auth"], "Authentication"),
   (["resilience", "circuit", "retry"], "Resilience"),
   (["cqrs", "event"], "CQRS"),
   (["mcp"], "MCP"),
   (["grpc", "graphql", "protocol"], "Multi-Protocol"),
   (["shutdown"], "Production-Ready"),
   (["security"], "Security")]

/-- At most one topic tag, chosen by the first keyword group (in the
priority order of `topicGroups`) with a member occurring in the
lowercased dump of the section mapping. -/
def specTopicTag (content : String) : List (String × String) :=
  match topicGroups.find?
      (fun grp => grp.1.any (fun kw => strContains content kw)) with
  | some grp => [("feature", grp.2)]
  | none => []

/-- The presence-based tags of the specification, in fixed order:
`new` for `Added`, `feature` for `Changed`, `fix` for `Fixed`, and
`breaking` when a `Breaking` key exists or `BREAKING` occurs in the
textual dump of the section mapping. -/
def specBaseTags (sections : List (String × List String)) :
    List (String × String) :=
  (if hasKey sections "Added" then [("new", "New")] else []) ++
  (if hasKey sections "Changed" then [("feature", "Changed")] else []) ++
  (if hasKey sections "Fixed" then [("fix", "Fixed")] else []) ++
  (if hasKey sections "Breaking" ||
      strContains (strSections sections) "BREAKING" then
    [("breaking", "Breaking")]
  else [])

theorem applyItem_releases (st : ParseState) (body : List Char) :
    (applyItem st body).releases = st.releases := by
  unfold applyItem
  (repeat' split) <;> rfl

theorem applyItem_current_map (st : ParseState) (body : List Char) :
    ((applyItem st body).current).map recVD = (st.current).map recVD := by
  unfold applyItem
  split
  · split
    · rename_i r sec hcur hsec hne
      rw [hcur]
      rfl
    · rfl
  · rfl

theorem applyItem_noop (st : ParseState) (body : List Char)
    (h : st.current = none ∨ st.curSection = none ∨ st.curSection = some "") :
    applyItem st body = st := by
  unfold applyItem
  split
  · rename_i r sec hcur hsec
    rcases h with h1 | h2 | h3
    · rw [hcur] at h1
      cases h1
    · rw [hsec] at h2
      cases h2
    · rw [hsec] at h3
      simp only [Option.some.injEq] at h3
      subst h3
      simp
  · rfl

theorem parseLine_header (st : ParseState) (line : String) (v d : String)
    (h : releaseMatch line = some (v, d)) :
    finalizeState (parseLine st line) =
      finalizeState st ++ [⟨v, d, []⟩] := by
  simp [parseLine, h, finalizeState]

theorem parseLine_nonheader (st : ParseState) (line : String)
    (h : releaseMatch line = none) :
    (parseLine st line).releases = st.releases ∧
      ((parseLine st line).current).map recVD = (st.current).map recVD := by
  unfold parseLine
  rw [h]
  constructor <;> (repeat' split) <;>
    simp_all [recVD, applyItem_releases, applyItem_current_map]

theorem toList_map_recVD (o o' : Option Release)
    (h : o.map recVD = o'.map recVD) :
    (o.toList).map recVD = (o'.toList).map recVD := by
  cases o <;> cases o' <;> simp_all

theorem parseLines_go (ls : List String) (st : ParseState) :
    (finalizeState (ls.foldl parseLine st)).map recVD =
      (finalizeState st).map recVD ++ ls.filterMap releaseMatch := by
  induction ls generalizing st with
  | nil => simp
  | cons l ls ih =>
    rw [List.foldl_cons, ih]
    cases h : releaseMatch l with
    | some vd =>
      obtain ⟨v, d⟩ := vd
      rw [parseLine_header st l v d h]
      simp [recVD, List.filterMap_cons, h]
    | none =>
      have h2 := parseLine_nonheader st l h
      simp [finalizeState, List.map_append, h2.1,
        toList_map_recVD _ _ h2.2, List.filterMap_cons, h]

theorem length_filterMap_eq {α β : Type} (f : α → Option β) (l : List α) :
    (l.filterMap f).length = (l.filter (fun x => (f x).isSome)).length := by
  induction l with
  | nil => rfl
  | cons a l ih =>
    cases h : f a <;> simp [List.filterMap_cons, List.filter_cons, h, ih]

/-- C1: the parser produces exactly one record per release-header line,
in document order: the sequence of (version, date) pairs of the output
equals the sequence of header captures of the input lines, and in
particular a document with N header lines yields exactly N records. -/
theorem c1_one_record_per_header (content : String) :
    (parse_changelog content).map (fun r => (r.version, r.date)) =
      (splitLines content).filterMap releaseMatch ∧
    (parse_changelog content).length =
      ((splitLines content).filter
        (fun l => (releaseMatch l).isSome)).length := by
  have h := parseLines_go (splitLines content) initState
  have h1 : (parse_changelog content).map (fun r => (r.version, r.date)) =
      (splitLines content).filterMap releaseMatch := by
    simpa [parse_changelog, parseLines, initState, finalizeState,
      recVD] using h
  refine ⟨h1, ?_⟩
  have h2 := congrArg List.length h1
  simpa [length_filterMap_eq] using h2

theorem dash_line_no_header (line : String) (body : List Char)
    (h : line.data = '-' :: ' ' :: body) :
    releaseMatch line = none ∧ sectionMatch line = none := by
  constructor
  · simp [releaseMatch, h]
  · simp [sectionMatch, h]

theorem parseLine_init_nonheader (line : String)
    (h : releaseMatch line = none) :
    parseLine initState line = initState := by
  unfold parseLine
  rw [h]
  have hnoop : ∀ body, applyItem ⟨[], none, none⟩ body = ⟨[], none, none⟩ :=
    fun body => applyItem_noop _ body (Or.inl rfl)
  (repeat' split) <;> simp_all [initState, hnoop]

/-- C7: the parser is total and permissive.  A prefix of lines none of
which is a release header leaves the initial state unchanged, so section
headers and list items met before any release header contribute to no
record; and a list-item line met with no open release, or with no (or an
empty-named, hence falsy) current section, leaves the whole state
unchanged, so it appears in no record and no section. -/
theorem c7_stray_lines_dropped :
    (∀ junk ls : List String, (∀ l ∈ junk, releaseMatch l = none) →
      parseLines (junk ++ ls) = parseLines ls) ∧
    (∀ (st : ParseState) (line : String) (body : List Char),
      line.data = '-' :: ' ' :: body →
      (st.current = none ∨ st.curSection = none ∨ st.curSection = some "") →
      parseLine st line = st) := by
  constructor
  · intro junk ls hj
    unfold parseLines
    congr 1
    rw [List.foldl_append]
    congr 1
    induction junk with
    | nil => rfl
    | cons l junk ih =>
      rw [List.foldl_cons, parseLine_init_nonheader l (hj l (by simp))]
      exact ih (fun x hx => hj x (by simp [hx]))
  · intro st line body hd hst
    have hh := dash_line_no_header line body hd
    unfold parseLine
    rw [hh.1]
    have hnoop := applyItem_noop st body hst
    (repeat' split) <;> simp_all

theorem c7_stray_lines_dropped_witness :
    parseLines ["### stray", "- stray", "## [1.0] - 2025-01-01"] =
      parseLines ["## [1.0] - 2025-01-01"] ∧
    parseLine initState "- stray" = initState := by
  constructor
  · exact c7_stray_lines_dropped.1 ["### stray", "- stray"]
      ["## [1.0] - 2025-01-01"] (by decide)
  · exact c7_stray_lines_dropped.2 initState "- stray"
      [ 's', 't', 'r', 'a', 'y' ] (by decide) (Or.inl rfl)

theorem head?_dropWhile_false (p : Char → Bool) (l : List Char) (c : Char)
    (h : (l.dropWhile p).head? = some c) : p c = false := by
  induction l with
  | nil => simp at h
  | cons a t ih =>
    rw [List.dropWhile_cons] at h
    by_cases hp : p a
    · rw [if_pos hp] at h
      exact ih h
    · rw [if_neg hp] at h
      simp only [List.head?_cons, Option.some.injEq] at h
      subst h
      simpa using hp

theorem getLast?_dropWhile_ne_nil (p : Char → Bool) (l : List Char)
    (h : l.dropWhile p ≠ []) : (l.dropWhile p).getLast? = l.getLast? := by
  induction l with
  | nil => simp at h
  | cons a t ih =>
    rw [List.dropWhile_cons] at h ⊢
    by_cases hp : p a
    · rw [if_pos hp] at h ⊢
      rw [ih h]
      cases t with
      | nil => simp at h
      | cons b t' => rw [List.getLast?_cons_cons]
    · rw [if_neg hp]

theorem pyStripL_noEdge (l : List Char) :
    (∀ c, (pyStripL l).head? = some c → pySpace c = false) ∧
    (∀ c, (pyStripL l).getLast? = some c → pySpace c = false) := by
  unfold pyStripL
  constructor
  · intro c hc
    rw [List.head?_reverse] at hc
    by_cases hne : (l.dropWhile pySpace).reverse.dropWhile pySpace = []
    · rw [hne] at hc
      simp at hc
    · rw [getLast?_dropWhile_ne_nil _ _ hne, List.getLast?_reverse] at hc
      exact head?_dropWhile_false _ _ _ hc
  · intro c hc
    rw [List.getLast?_reverse] at hc
    exact head?_dropWhile_false _ _ _ hc

theorem data_mk (l : List Char) : (String.mk l).data = l := rfl

theorem releaseMatch_groups (line v d : String)
    (h : releaseMatch line = some (v, d)) :
    v.data ≠ [] ∧ (∀ c ∈ v.data, c ≠ ']') ∧ dateShape d.data = true := by
  unfold releaseMatch at h
  split at h
  · dsimp only at h
    split at h
    · exact absurd h (by simp)
    · split at h
      · split at h
        · simp only [Option.some.injEq, Prod.mk.injEq] at h
          obtain ⟨hv, hd⟩ := h
          subst hv
          subst hd
          refine ⟨by simp_all, ?_, by simp_all⟩
          intro c hc
          rw [data_mk] at hc
          simpa using List.mem_takeWhile_imp hc
        · exact absurd h (by simp)
      · exact absurd h (by simp)
  · exact absurd h (by simp)

theorem dateShape_length (l : List Char) (h : dateShape l = true) :
    l.length = 10 := by
  unfold dateShape at h
  split at h
  · simp_all
  · simp at h

theorem dictSet_nil_itemsOK (m : List (String × List String)) (k : String)
    (h : ItemsOK m) : ItemsOK (dictSet m k []) := by
  induction m with
  | nil =>
    intro p hp
    simp [dictSet] at hp
    subst hp
    simp
  | cons q rest ih =>
    obtain ⟨k', v'⟩ := q
    intro p hp
    rw [dictSet] at hp
    split at hp
    · rcases List.mem_cons.mp hp with h1 | h2
      · subst h1
        intro it hit
        simp at hit
      · exact h p (by simp [h2])
    · rcases List.mem_cons.mp hp with h1 | h2
      · exact h p (by simp [h1])
      · exact ih (fun q hq => h q (by simp [hq])) p h2

theorem dictAppend_itemsOK (m : List (String × List String)) (k it : String)
    (h : ItemsOK m)
    (hit : (∀ c, it.data.head? = some c → pySpace c = false) ∧
      (∀ c, it.data.getLast? = some c → pySpace c = false)) :
    ItemsOK (dictAppend m k it) := by
  induction m with
  | nil => intro p hp; simp [dictAppend] at hp
  | cons q rest ih =>
    obtain ⟨k', v'⟩ := q
    intro p hp
    rw [dictAppend] at hp
    split at hp
    · rcases List.mem_cons.mp hp with h1 | h2
      · subst h1
        intro x hx
        rcases List.mem_append.mp hx with hx1 | hx2
        · exact h (k', v') (by simp) x hx1
        · simp at hx2
          subst hx2
          exact hit
      · exact h _ (by simp [h2])
    · rcases List.mem_cons.mp hp with h1 | h2
      · exact h p (by simp [h1])
      · exact ih (fun q hq => h q (by simp [hq])) p h2

theorem applyItem_stateOK (st : ParseState) (body : List Char)
    (h : StateOK st) : StateOK (applyItem st body) := by
  unfold applyItem
  split
  · split
    · rename_i r sec hcur hsec hne
      refine ⟨h.1, ?_⟩
      intro r' hr'
      simp only [Option.some.injEq] at hr'
      subst hr'
      obtain ⟨a, b, c, d⟩ := h.2 r hcur
      exact ⟨a, b, c, dictAppend_itemsOK _ _ _ d (pyStripL_noEdge _)⟩
    · exact h
  · exact h

theorem lineData_stateOK (st : ParseState) (line : String)
    (h : StateOK st) :
    StateOK (match line.data with
      | '-' :: ' ' :: body => applyItem st body
      | _ => st) := by
  split
  · exact applyItem_stateOK st _ h
  · exact h

theorem parseLine_stateOK (st : ParseState) (line : String)
    (h : StateOK st) : StateOK (parseLine st line) := by
  unfold parseLine
  cases hr : releaseMatch line with
  | some vd =>
    obtain ⟨v, d⟩ := vd
    obtain ⟨h1, h2, h3⟩ := releaseMatch_groups line v d hr
    refine ⟨?_, ?_⟩
    · intro r hrm
      simp only [List.mem_append] at hrm
      rcases hrm with hm1 | hm2
      · exact h.1 r hm1
      · cases hc : st.current with
        | none => rw [hc] at hm2; simp at hm2
        | some r0 =>
          rw [hc] at hm2
          simp at hm2
          subst hm2
          exact h.2 r hc
    · intro r hr2
      simp only [Option.some.injEq] at hr2
      subst hr2
      exact ⟨h1, h2, h3, fun p hp => absurd hp (by simp)⟩
  | none =>
    cases hs : sectionMatch line with
    | some g =>
      cases hc : st.current with
      | some r =>
        dsimp only
        refine ⟨h.1, ?_⟩
        intro r' hr'
        simp only [Option.some.injEq] at hr'
        subst hr'
        obtain ⟨a, b, c, d⟩ := h.2 r hc
        exact ⟨a, b, c, dictSet_nil_itemsOK _ _ d⟩
      | none => exact lineData_stateOK st line h
    | none => exact lineData_stateOK st line h

theorem stateOK_init : StateOK initState := by
  constructor
  · intro r hr
    simp [initState] at hr
  · intro r hr
    simp [initState] at hr

theorem foldl_stateOK (ls : List String) (st : ParseState)
    (h : StateOK st) : StateOK (ls.foldl parseLine st) := by
  induction ls generalizing st with
  | nil => exact h
  | cons l ls ih => exact ih _ (parseLine_stateOK st l h)

/-- C10: every record produced by the parser has a non-empty version
token containing no `]`, a date token of exactly ten characters in the
digit/hyphen shape `NNNN-NN-NN`, and only items with neither leading
nor trailing whitespace. -/
theorem c10_record_invariants (content : String) (r : Release)
    (hr : r ∈ parse_changelog content) :
    r.version ≠ "" ∧ (∀ c ∈ r.version.data, c ≠ ']') ∧
    dateShape r.date.data = true ∧ r.date.data.length = 10 ∧
    ItemsOK r.sections := by
  have hok : StateOK ((splitLines content).foldl parseLine initState) :=
    foldl_stateOK _ _ stateOK_init
  have hmem : r ∈ finalizeState ((splitLines content).foldl parseLine initState) := hr
  unfold finalizeState at hmem
  have hrOK : RecordOK r := by
    rcases List.mem_append.mp hmem with hm1 | hm2
    · exact hok.1 r hm1
    · cases hc : ((splitLines content).foldl parseLine initState).current with
      | none => rw [hc] at hm2; simp at hm2
      | some r0 =>
        rw [hc] at hm2
        simp at hm2
        subst hm2
        exact hok.2 r hc
  obtain ⟨h1, h2, h3, h4⟩ := hrOK
  refine ⟨?_, h2, h3, dateShape_length _ h3, h4⟩
  intro he
  exact h1 (by rw [he])

theorem c10_record_invariants_witness :
    ("1.0" : String) ≠ "" ∧ (∀ c ∈ ("1.0" : String).data, c ≠ ']') ∧
    dateShape ("2025-01-02" : String).data = true ∧
    ("2025-01-02" : String).data.length = 10 ∧
    ItemsOK [("Added", ["x"])] :=
  c10_record_invariants "## [1.0] - 2025-01-02\n### Added\n-  x "
    ⟨"1.0", "2025-01-02", [("Added", ["x"])]⟩ (by decide)

theorem dictSet_keys (m : List (String × List String)) (k : String)
    (v : List String) (h : k ∈ m.map Prod.fst) :
    (dictSet m k v).map Prod.fst = m.map Prod.fst := by
  induction m with
  | nil => simp at h
  | cons q rest ih =>
    obtain ⟨k', v'⟩ := q
    rw [dictSet]
    by_cases hk : k' = k
    · subst hk
      simp
    · rw [if_neg hk]
      simp only [List.map_cons] at h ⊢
      rcases List.mem_cons.mp h with h1 | h2
      · exact absurd h1.symm hk
      · rw [ih h2]

theorem dictGet_dictSet_self (m : List (String × List String)) (k : String)
    (v : List String) : dictGet (dictSet m k v) k = some v := by
  induction m with
  | nil => simp [dictSet, dictGet]
  | cons q rest ih =>
    obtain ⟨k', v'⟩ := q
    rw [dictSet]
    by_cases hk : k' = k
    · subst hk
      simp [dictGet]
    · rw [if_neg hk, dictGet, if_neg hk]
      exact ih

theorem dictGet_dictSet_other (m : List (String × List String))
    (k : String) (v : List String) (k' : String) (h : k' ≠ k) :
    dictGet (dictSet m k v) k' = dictGet m k' := by
  induction m with
  | nil =>
    simp only [dictSet, dictGet]
    rw [if_neg (fun he => h he.symm)]
  | cons q rest ih =>
    obtain ⟨k0, v0⟩ := q
    simp only [dictSet]
    by_cases hk : k0 = k
    · subst hk
      rw [if_pos rfl]
      simp only [dictGet]
      rw [if_neg (fun he => h he.symm), if_neg (fun he => h he.symm)]
    · rw [if_neg hk]
      simp only [dictGet]
      by_cases hk0 : k0 = k'
      · rw [if_pos hk0, if_pos hk0]
      · rw [if_neg hk0, if_neg hk0]
        exact ih

/-- C4: within one release, re-encountering a section header whose
stripped label is already a key resets that key's item list to empty
while the key keeps its first-seen position (the key sequence is
unchanged, the reset key maps to `[]`, all other keys keep their
values); concretely, a release listing `Added` twice ends up with the
items of the last occurrence, with `Added` still first in insertion
order. -/
theorem c4_section_reset :
    (∀ (st : ParseState) (r : Release) (line g : String),
      releaseMatch line = none → sectionMatch line = some g →
      st.current = some r →
      parseLine st line =
        { st with
          current := some
            { r with sections := dictSet r.sections (pyStrip g) [] }
          curSection := some (pyStrip g) }) ∧
    (∀ (m : List (String × List String)) (k : String),
      k ∈ m.map Prod.fst →
      (dictSet m k []).map Prod.fst = m.map Prod.fst ∧
      dictGet (dictSet m k []) k = some [] ∧
      ∀ k', k' ≠ k → dictGet (dictSet m k []) k' = dictGet m k') ∧
    parse_changelog
        "## [1.0] - 2025-01-01\n### Added\n- a\n### Fixed\n- f\n### Added\n- b\n- c" =
      [⟨"1.0", "2025-01-01", [("Added", ["b", "c"]), ("Fixed", ["f"])]⟩] := by
  refine ⟨?_, ?_, by decide⟩
  · intro st r line g h1 h2 h3
    simp [parseLine, h1, h2, h3]
  · intro m k h
    exact ⟨dictSet_keys m k [] h, dictGet_dictSet_self m k [],
      fun k' hk' => dictGet_dictSet_other m k [] k' hk'⟩

theorem c4_section_reset_witness :
    parseLine ⟨[], some ⟨"1.0", "2025-01-01", [("Added", ["a"])]⟩, some "Added"⟩
        "### Added" =
      { releases := ([] : List Release)
        current := some ⟨"1.0", "2025-01-01",
          dictSet [("Added", ["a"])] (pyStrip "Added") []⟩
        curSection := some (pyStrip "Added") } ∧
    ((dictSet [("Added", ["a"]), ("Fixed", ["f"])] "Added" []).map Prod.fst =
        ([("Added", ["a"]), ("Fixed", ["f"])] : List (String × List String)).map
          Prod.fst ∧
      dictGet (dictSet [("Added", ["a"]), ("Fixed", ["f"])] "Added" [])
          "Added" = some [] ∧
      ∀ k', k' ≠ "Added" →
        dictGet (dictSet [("Added", ["a"]), ("Fixed", ["f"])] "Added" []) k' =
          dictGet [("Added", ["a"]), ("Fixed", ["f"])] k') :=
  ⟨c4_section_reset.1 _ _ "### Added" "Added" (by decide) (by decide) rfl,
    c4_section_reset.2.1 [("Added", ["a"]), ("Fixed", ["f"])] "Added"
      (by decide)⟩

/-- C2: the inferred title follows exactly the three ordered rules of
the specification. -/
theorem c2_title_rules (release : Release) :
    get_title release = titleSpec release := by
  unfold get_title titleSpec
  cases hadd : (dictGet release.sections "Added").getD [] with
  | nil => simp
  | cons a0 tl =>
    cases hf : (a0 :: tl).findSome? boldMatch with
    | some inner => simp [hf]
    | none => simp [hf]

/-- C6: the date formatter renders every token that parses as a valid
`YYYY-MM-DD` calendar date as `MonthName DD, YYYY` (for instance
`2025-12-13` becomes `December 13, 2025`), and returns every other
token verbatim, raising no error — including pattern-shaped but
non-calendar tokens such as `2025-13-45`. -/
theorem c6_date_fallback :
    format_date "2025-12-13" = "December 13, 2025" ∧
    format_date "2025-13-45" = "2025-13-45" ∧
    (∀ s : String, strptimeYmd s = none → format_date s = s) ∧
    (∀ (s : String) (y m d : Nat), strptimeYmd s = some (y, m, d) →
      format_date s = monthName m ++ " " ++ pad2 d ++ ", " ++ toString y) := by
  refine ⟨by decide, by decide, ?_, ?_⟩
  · intro s h
    unfold format_date
    rw [h]
  · intro s y m d h
    unfold format_date
    rw [h]

theorem c6_date_fallback_witness :
    format_date "2024-02-30" = "2024-02-30" ∧
    format_date "2024-02-29" =
      monthName 2 ++ " " ++ pad2 29 ++ ", " ++ toString 2024 :=
  ⟨c6_date_fallback.2.2.1 "2024-02-30" (by decide),
    c6_date_fallback.2.2.2 "2024-02-29" 2024 2 29 (by decide)⟩

/-- C9: rendering truncates each section to its first ten items and the
document to its first fifteen releases — replacing every section's item
list by its first ten entries leaves the rendered section markup
unchanged, and truncating the release list to fifteen leaves the
assembled document unchanged. -/
theorem c9_truncation :
    (∀ sections : List (String × List String),
      sectionsHtml sections =
        sectionsHtml (sections.map (fun p => (p.1, p.2.take 10)))) ∧
    (∀ releases : List Release,
      generate_html releases = generate_html (releases.take 15)) := by
  constructor
  · intro sections
    induction sections with
    | nil => rfl
    | cons q rest ih =>
      obtain ⟨name, items⟩ := q
      simp only [List.map_cons, sectionsHtml]
      by_cases he : items.isEmpty
      · have he2 : (items.take 10).isEmpty = true := by
          cases items <;> simp_all
        rw [if_pos he, if_pos he2, ih]
      · have he2 : ¬(items.take 10).isEmpty = true := by
          cases items <;> simp_all
        rw [if_neg he, if_neg he2, ih]
        congr 1
        simp [sectionBlock, List.take_take]
  · intro releases
    simp [generate_html, List.take_take]

theorem sectionsHtml_skip_empty (m : List (String × List String)) :
    sectionsHtml m = sectionsHtml (m.filter (fun p => !p.2.isEmpty)) := by
  induction m with
  | nil => rfl
  | cons q rest ih =>
    obtain ⟨name, items⟩ := q
    by_cases he : items.isEmpty
    · simp [sectionsHtml, List.filter_cons, he, ih]
    · simp [sectionsHtml, List.filter_cons, he, ih]

theorem breaking_mem_get_tags (r : Release)
    (h : hasKey r.sections "Breaking" = true) :
    ("breaking", "Breaking") ∈ get_tags r := by
  unfold get_tags
  by_cases h1 : hasKey r.sections "Added" <;>
    by_cases h2 : hasKey r.sections "Changed" <;>
      by_cases h3 : hasKey r.sections "Fixed" <;>
        simp [h, h1, h2, h3, List.take_append_eq_append_take]

/-- C5: a release whose section mapping holds the key `Breaking` with an
empty item sequence still receives the `('breaking', 'Breaking')` tag
(tag inference depends only on key presence), yet the rendered markup
contains no block for it: rendering skips every section with zero
items, so the section markup equals that of the mapping with all empty
sections removed. -/
theorem c5_breaking_empty (r : Release)
    (h : ("Breaking", ([] : List String)) ∈ r.sections) :
    ("breaking", "Breaking") ∈ get_tags r ∧
    sectionsHtml r.sections =
      sectionsHtml (r.sections.filter (fun p => !p.2.isEmpty)) := by
  refine ⟨breaking_mem_get_tags r ?_, sectionsHtml_skip_empty r.sections⟩
  unfold hasKey
  exact List.any_eq_true.mpr ⟨("Breaking", []), h, by simp⟩

theorem c5_breaking_empty_witness :
    ("breaking", "Breaking") ∈
      get_tags ⟨"1.0", "2025-01-01", [("Breaking", [])]⟩ ∧
    sectionsHtml [("Breaking", ([] : List String))] =
      sectionsHtml
        ([("Breaking", ([] : List String))].filter (fun p => !p.2.isEmpty)) :=
  c5_breaking_empty ⟨"1.0", "2025-01-01", [("Breaking", [])]⟩ (by decide)

/-- C3: the inferred tags are exactly the presence tags followed by the
first-matching topic tag, truncated to the first four entries, so every
release carries between zero and four tags in that priority order. -/
theorem c3_tag_rules (release : Release) :
    get_tags release =
      (specBaseTags release.sections ++
        specTopicTag (pyLower (strSections release.sections))).take 4 ∧
    (get_tags release).length ≤ 4 := by
  constructor
  · unfold get_tags specBaseTags specTopicTag topicGroups
    by_cases h1 :
        strContains (pyLower (strSections release.sections)) "auth" <;>
      by_cases h2 :
          strContains (pyLower (strSections release.sections)) "resilience" <;>
        by_cases h3 :
            strContains (pyLower (strSections release.sections)) "circuit" <;>
          by_cases h4 :
              strContains (pyLower (strSections release.sections)) "retry" <;>
            by_cases h5 :
                strContains (pyLower (strSections release.sections)) "cqrs" <;>
              by_cases h6 :
                  strContains (pyLower (strSections release.sections))
                    "event" <;>
                simp_all [List.find?, List.any]
    by_cases h7 : strContains (pyLower (strSections release.sections)) "mcp" <;>
      by_cases h8 :
          strContains (pyLower (strSections release.sections)) "grpc" <;>
        by_cases h9 :
            strContains (pyLower (strSections release.sections)) "graphql" <;>
          by_cases h10 :
              strContains (pyLower (strSections release.sections))
                "protocol" <;>
            by_cases h11 :
                strContains (pyLower (strSections release.sections))
                  "shutdown" <;>
              by_cases h12 :
                  strContains (pyLower (strSections release.sections))
                    "security" <;>
                simp_all
  · unfold get_tags
    exact List.length_take_le _ _

theorem isInfix_append_left (x : List Char) {l m : List Char}
    (h : List.IsInfix l m) : List.IsInfix l (x ++ m) := by
  obtain ⟨u, v, huv⟩ := h
  exact ⟨x ++ u, v, by rw [← huv]; simp [List.append_assoc]⟩

theorem isInfix_append_right (x : List Char) {l m : List Char}
    (h : List.IsInfix l m) : List.IsInfix l (m ++ x) := by
  obtain ⟨u, v, huv⟩ := h
  exact ⟨u, v ++ x, by rw [← huv]; simp [List.append_assoc]⟩

theorem isInfix_joinSep (sep : String) (l : List String) (s : String)
    (h : s ∈ l) : List.IsInfix s.data (joinSep sep l).data := by
  induction l with
  | nil => simp at h
  | cons x xs ih =>
    cases xs with
    | nil =>
      simp at h
      subst h
      exact List.infix_refl _
    | cons y ys =>
      rcases List.mem_cons.mp h with h1 | h2
      · subst h1
        refine ⟨[], (sep ++ joinSep sep (y :: ys)).data, ?_⟩
        simp [joinSep, String.data_append, List.append_assoc]
      · have hr := ih h2
        have := isInfix_append_left (x ++ sep).data hr
        simpa [joinSep, String.data_append, List.append_assoc] using this

theorem isInfix_sectionsHtml (m : List (String × List String))
    (name : String) (items : List String) (h : (name, items) ∈ m)
    (hne : items.isEmpty = false) :
    List.IsInfix (sectionBlock name items).data (sectionsHtml m).data := by
  induction m with
  | nil => simp at h
  | cons q rest ih =>
    obtain ⟨n2, its2⟩ := q
    rcases List.mem_cons.mp h with h1 | h2
    · injection h1 with ha hb
      subst ha
      subst hb
      simp only [sectionsHtml]
      rw [if_neg (by simp [hne])]
      exact ⟨[], (sectionsHtml rest).data, by
        simp [String.data_append, List.append_assoc]⟩
    · have hr := ih h2
      simp only [sectionsHtml]
      by_cases he2 : its2.isEmpty
      · rw [if_pos he2]
        exact hr
      · rw [if_neg he2]
        have := isInfix_append_left (sectionBlock n2 its2).data hr
        simpa [String.data_append] using this

theorem isInfix_generate_release_title (r : Release) :
    List.IsInfix
      ("<h2 class=\"release-title\">" ++ escape_html (get_title r) ++
        "</h2>").data
      (generate_release_html r).data := by
  unfold generate_release_html
  refine ⟨("\n                <!-- v" ++ r.version ++
    " -->\n                <div class=\"release\">\n                    <div class=\"release-meta\">\n                        <div class=\"release-date\">" ++
    format_date r.date ++
    "</div>\n                        <div class=\"release-version\">" ++
    r.version ++
    "</div>\n                    </div>\n                    <div class=\"release-content\">\n                        ").data,
    ("\n                        <div class=\"release-tags\">\n                            " ++
      joinSep "\n                            "
        ((get_tags r).map (fun t =>
          "<span class=\"tag " ++ t.1 ++ "\">" ++ t.2 ++ "</span>")) ++
      "\n                        </div>\n" ++ sectionsHtml r.sections ++
      "\n                    </div>\n                </div>\n").data, ?_⟩
  simp [String.data_append, List.append_assoc]

theorem isInfix_generate_release_sections (r : Release) {n : List Char}
    (h : List.IsInfix n (sectionsHtml r.sections).data) :
    List.IsInfix n (generate_release_html r).data := by
  unfold generate_release_html
  have h2 := isInfix_append_right
    "\n                    </div>\n                </div>\n".data h
  have h3 := isInfix_append_left
    ("\n                <!-- v" ++ r.version ++
      " -->\n                <div class=\"release\">\n                    <div class=\"release-meta\">\n                        <div class=\"release-date\">" ++
      format_date r.date ++
      "</div>\n                        <div class=\"release-version\">" ++
      r.version ++
      "</div>\n                    </div>\n                    <div class=\"release-content\">\n                        " ++
      "<h2 class=\"release-title\">" ++ escape_html (get_title r) ++
      "</h2>" ++
      "\n                        <div class=\"release-tags\">\n                            " ++
      joinSep "\n                            "
        ((get_tags r).map (fun t =>
          "<span class=\"tag " ++ t.1 ++ "\">" ++ t.2 ++ "</span>")) ++
      "\n                        </div>\n").data h2
  simpa [String.data_append, List.append_assoc] using h3

theorem isInfix_block_h3 (name : String) (items : List String) :
    List.IsInfix
      ("<h3 class=\"section-title\">" ++ escape_html name ++ "</h3>").data
      (sectionBlock name items).data := by
  unfold sectionBlock
  refine
    ⟨"\n                        <div class=\"section\">\n                            ".data,
    ("\n                            <ul>\n                                " ++
      joinSep "\n                                "
        ((items.take 10).map
          (fun item => "<li>" ++ format_item item ++ "</li>")) ++
      "\n                            </ul>\n                        </div>\n").data,
    ?_⟩
  simp [String.data_append, List.append_assoc]

theorem isInfix_block_item (name : String) (items : List String)
    (item : String) (h : item ∈ items.take 10) :
    List.IsInfix ("<li>" ++ format_item item ++ "</li>").data
      (sectionBlock name items).data := by
  unfold sectionBlock
  have h1 := isInfix_joinSep "\n                                "
    ((items.take 10).map (fun it => "<li>" ++ format_item it ++ "</li>"))
    ("<li>" ++ format_item item ++ "</li>") (List.mem_map_of_mem _ h)
  have h2 := isInfix_append_right
    "\n                            </ul>\n                        </div>\n".data
    h1
  have h3 := isInfix_append_left
    (("\n                        <div class=\"section\">\n                            " ++
      "<h3 class=\"section-title\">" ++ escape_html name ++ "</h3>" ++
      "\n                            <ul>\n                                ").data)
    h2
  simpa [String.data_append, List.append_assoc] using h3

/-- C8: the renderer escapes the inferred title and every rendered
section name with `escape_html`, which substitutes `&`, then `<`, then
`>` in that order (so `&<>` becomes `&amp;&lt;&gt;`, and `&lt;` becomes
`&amp;lt;` because `&` is replaced first), while every rendered item
body appears in the fragment as `format_item item` verbatim — only the
inline markup conversion, no independent escaping of `&`, `<`, `>`. -/
theorem c8_escape_sites (r : Release) :
    escape_html "&<>" = "&amp;&lt;&gt;" ∧
    escape_html "&lt;" = "&amp;lt;" ∧
    List.IsInfix
      ("<h2 class=\"release-title\">" ++ escape_html (get_title r) ++
        "</h2>").data
      (generate_release_html r).data ∧
    ∀ name items, (name, items) ∈ r.sections → items.isEmpty = false →
      List.IsInfix
        ("<h3 class=\"section-title\">" ++ escape_html name ++ "</h3>").data
        (generate_release_html r).data ∧
      ∀ item ∈ items.take 10,
        List.IsInfix ("<li>" ++ format_item item ++ "</li>").data
          (generate_release_html r).data := by
  refine ⟨by decide, by decide, isInfix_generate_release_title r, ?_⟩
  intro name items hmem hne
  constructor
  · exact isInfix_generate_release_sections r
      ((isInfix_block_h3 name items).trans
        (isInfix_sectionsHtml r.sections name items hmem hne))
  · intro item hit
    exact isInfix_generate_release_sections r
      ((isInfix_block_item name items item hit).trans
        (isInfix_sectionsHtml r.sections name items hmem hne))

theorem c8_escape_sites_witness :
    List.IsInfix
      ("<h3 class=\"section-title\">" ++ escape_html "Added" ++ "</h3>").data
      (generate_release_html
        ⟨"1.0", "2025-01-01", [("Added", ["**x** <i>"])]⟩).data ∧
    List.IsInfix ("<li>" ++ format_item "**x** <i>" ++ "</li>").data
      (generate_release_html
        ⟨"1.0", "2025-01-01", [("Added", ["**x** <i>"])]⟩).data := by
  have h := (c8_escape_sites
      ⟨"1.0", "2025-01-01", [("Added", ["**x** <i>"])]⟩).2.2.2
    "Added" ["**x** <i>"] (by decide) (by decide)
  exact ⟨h.1, h.2 "**x** <i>" (by decide)⟩
